import Mathlib

/-!
Verification of the detection refinement pipeline of `backend/detection.py`
(driver-behavior detection: Smoke / Phone / Drink / Driver).

The Python functions are embedded shallowly: bounding-box coordinates and
confidences become rationals, detection records become structures, and each
stage of `DetectionEngine.detect_image` / `DetectionEngine.process_video`
becomes an executable Lean function mirroring the source line by line.
-/

namespace DetectDriver

/-- An axis-aligned bounding box, the `[x1, y1, x2, y2]` list of the source. -/
structure Box where
  x1 : ℚ
  y1 : ℚ
  x2 : ℚ
  y2 : ℚ
deriving DecidableEq, Repr

/-- A detection record as assembled in `DetectionEngine.detect_image`:
`{'bbox': ..., 'confidence': ..., 'class_id': ..., 'class_name': ...}`. -/
structure Det where
  bbox : Box
  confidence : ℚ
  class_id : ℤ
  class_name : String
deriving DecidableEq, Repr

/-- `DetectionEngine._calculate_iou`: intersection over union of two boxes,
`0` when the union area is not positive. -/
def calculate_iou (box1 box2 : Box) : ℚ :=
  let x1_max := max box1.x1 box2.x1
  let y1_max := max box1.y1 box2.y1
  let x2_min := min box1.x2 box2.x2
  let y2_min := min box1.y2 box2.y2
  let inter_width := max 0 (x2_min - x1_max)
  let inter_height := max 0 (y2_min - y1_max)
  let inter_area := inter_width * inter_height
  let area1 := (box1.x2 - box1.x1) * (box1.y2 - box1.y1)
  let area2 := (box2.x2 - box2.x1) * (box2.y2 - box2.y1)
  let union_area := area1 + area2 - inter_area
  if 0 < union_area then inter_area / union_area else 0

/-- The comparison used by `detections.sort(key=lambda x: x['confidence'],
reverse=True)`: `a` may come before `b` when `a`'s confidence is at least
`b`'s.  Python's sort is stable; `List.insertionSort` with this relation is
the matching stable descending sort. -/
def confGE (a b : Det) : Prop := b.confidence ≤ a.confidence

instance : DecidableRel confGE := fun a b =>
  inferInstanceAs (Decidable (b.confidence ≤ a.confidence))

instance : IsTotal Det confGE := ⟨fun a b => le_total b.confidence a.confidence⟩

instance : IsTrans Det confGE := ⟨fun _ _ _ h1 h2 => le_trans h2 h1⟩

/-- The stable descending-confidence sort of the NMS block. -/
def sortByConfDesc (detections : List Det) : List Det :=
  List.insertionSort confGE detections

/-- The greedy suppression loop of the NMS block: pop the highest-confidence
detection, keep it, and drop every remaining detection whose IoU with it is
`≥ 0.45`. -/
def nms_keep : List Det → List Det
  | [] => []
  | best :: rest =>
    best :: nms_keep
      (rest.filter fun det => decide (calculate_iou best.bbox det.bbox < 45/100))
termination_by l => l.length
decreasing_by
  simp only [List.length_cons]
  exact Nat.lt_succ_of_le (List.length_filter_le _ _)

/-- The Deduplicator (`# === 3. 非极大值抑制 (NMS) 去重 ===` block of
`detect_image`): lists of length `≤ 1` pass through unchanged, otherwise the
list is sorted by descending confidence and the greedy loop runs. -/
def dedup (detections : List Det) : List Det :=
  if detections.length > 1 then
    nms_keep (sortByConfDesc detections)
  else detections

/-- `target_behaviors = ['Smoke', 'Phone', 'Drink']` in `detect_image`. -/
def target_behaviors : List String := ["Smoke", "Phone", "Drink"]

/-- The `class_thresholds` dict of `detect_image`; `none` models a key
absent from the dict. -/
def class_thresholds (name : String) : Option ℚ :=
  if name = "Smoke" then some (80/100)
  else if name = "Drink" then some (10/100)
  else if name = "Phone" then some (25/100)
  else if name = "Driver" then some (25/100)
  else none

/-- The first-pass filter-and-map block of `detect_image` (the ClassMapper):
given the model vocabulary `class_names`, a raw label and its raw class id,
return the canonical `(class_name, class_id)` or `none` for a discarded
detection.  The generic branch runs when `'person' in self.class_names`. -/
def firstPassMapLabel (class_names : List String) (class_name : String) (cls_id : ℤ) :
    Option (String × ℤ) :=
  if "person" ∈ class_names then
    if class_name = "cell phone" then some ("Phone", 1)
    else if class_name ∈ (["bottle", "cup", "wine glass"] : List String) then some ("Drink", 2)
    else if class_name = "person" then some ("Driver", 3)
    else none
  else
    if class_name ∈ target_behaviors then some (class_name, cls_id) else none

/-- The ThresholdGate predicate of the first-pass filter:
`d['confidence'] >= class_thresholds.get(d['class_name'], conf_threshold)`. -/
def threshold_gate (conf_threshold : ℚ) (d : Det) : Bool :=
  decide ((class_thresholds d.class_name).getD conf_threshold ≤ d.confidence)

/-- The first-pass threshold filter of `detect_image`. -/
def firstPassFilter (conf_threshold : ℚ) (detections : List Det) : List Det :=
  detections.filter (threshold_gate conf_threshold)

/-- `detect_conf = 0.20 if 'person' not in self.class_names else 0.15`:
the confidence floor handed to the model on a second-pass crop. -/
def second_pass_conf (class_names : List String) : ℚ :=
  if "person" ∉ class_names then 20/100 else 15/100

/-- A raw detection of the second pass over a crop: crop-local box,
confidence and raw class index (`sb`, `sc`, `sid` in the source). -/
structure RawDet where
  bbox : Box
  confidence : ℚ
  cls_id : ℕ
deriving DecidableEq, Repr

/-- The crop-local to frame-coordinate translation of `detect_image`:
`g_box = [sb[0]+crop_x1, sb[1]+crop_y1, sb[2]+crop_x1, sb[3]+crop_y1]`. -/
def translate_box (b : Box) (crop_x1 crop_y1 : ℚ) : Box :=
  ⟨b.x1 + crop_x1, b.y1 + crop_y1, b.x2 + crop_x1, b.y2 + crop_y1⟩

/-- The per-raw-detection body of the second-pass loop of `detect_image`:
translate the box, then either pass the specialized model's label through the
class-specific threshold, or apply the generic model's mapping chain
(`cell phone`/drink labels/`cigarette`), returning the appended detection or
`none` when nothing is appended. -/
def secondPassProcessRaw (class_names : List String) (crop_x1 crop_y1 : ℚ) (r : RawDet) :
    Option Det :=
  let s_name := class_names.getD r.cls_id ""
  let g_box := translate_box r.bbox crop_x1 crop_y1
  if "person" ∉ class_names then
    if (class_thresholds s_name).getD (20/100) ≤ r.confidence then
      some ⟨g_box, r.confidence, (r.cls_id : ℤ), s_name⟩
    else none
  else
    if s_name = "cell phone" ∧ (class_thresholds "Phone").getD (25/100) ≤ r.confidence then
      some ⟨g_box, r.confidence, 1, "Phone"⟩
    else if s_name ∈ (["bottle", "cup", "wine glass"] : List String) ∧
        (class_thresholds "Drink").getD (12/100) ≤ r.confidence then
      some ⟨g_box, r.confidence, 2, "Drink"⟩
    else if s_name = "cigarette" ∧ (class_thresholds "Smoke").getD (65/100) ≤ r.confidence then
      some ⟨g_box, r.confidence, 0, "Smoke"⟩
    else none

/-- Python `int(...)` on a rational: truncation toward zero. -/
def pyInt (q : ℚ) : ℤ := if 0 ≤ q then ⌊q⌋ else ⌈q⌉

/-- `margin_x = int((x2 - x1) * 0.35)` of the crop-proposal block. -/
def margin_x (x1 x2 : ℤ) : ℤ := pyInt (((x2 - x1 : ℤ) : ℚ) * (35/100))

/-- `margin_y = int((y2 - y1) * 0.3)` of the crop-proposal block. -/
def margin_y (y1 y2 : ℤ) : ℤ := pyInt (((y2 - y1 : ℤ) : ℚ) * (30/100))

/-- `int((y2 - y1) * 0.5)`, the extra downward expansion of the crop. -/
def extra_y (y1 y2 : ℤ) : ℤ := pyInt (((y2 - y1 : ℤ) : ℚ) * (50/100))

/-- An integer crop rectangle (`crop_x1, crop_y1, crop_x2, crop_y2`). -/
structure CropRegion where
  x1 : ℤ
  y1 : ℤ
  x2 : ℤ
  y2 : ℤ
deriving DecidableEq, Repr

/-- The clamped crop rectangle the RegionProposer builds from one driver box:
`crop_x1 = max(0, x1 - margin_x)`, ..., `crop_y2 = min(img_h, y2 + margin_y
+ int((y2 - y1) * 0.5))`. -/
def cropBounds (d_box : Box) (img_w img_h : ℤ) : CropRegion :=
  let x1 := pyInt d_box.x1
  let y1 := pyInt d_box.y1
  let x2 := pyInt d_box.x2
  let y2 := pyInt d_box.y2
  ⟨max 0 (x1 - margin_x x1 x2), max 0 (y1 - margin_y y1 y2),
    min img_w (x2 + margin_x x1 x2), min img_h (y2 + margin_y y1 y2 + extra_y y1 y2)⟩

/-- The RegionProposer: the clamped crop, or `none` when
`crop_x2 <= crop_x1 or crop_y2 <= crop_y1` (the `continue` of the source). -/
def proposeCrop (d_box : Box) (img_w img_h : ℤ) : Option CropRegion :=
  let c := cropBounds d_box img_w img_h
  if c.x2 ≤ c.x1 ∨ c.y2 ≤ c.y1 then none else some c

/-- The `for d_box in driver_boxes` loop of the second pass: each box either
contributes the detections the crop-level detector (`runCrop`, abstracting
the model invocation on the cropped image) returns on its proposed region, or
nothing when the region is degenerate. -/
def secondPassOverBoxes (img_w img_h : ℤ) (runCrop : CropRegion → List Det) :
    List Box → List Det
  | [] => []
  | d_box :: rest =>
    (match proposeCrop d_box img_w img_h with
      | none => []
      | some c => runCrop c) ++ secondPassOverBoxes img_w img_h runCrop rest

/-- The statistics accumulator of `process_video`: the dict keys in insertion
order, the per-class detection counts and the per-class frame-index lists. -/
structure VideoStats where
  keys : List String
  counts : String → ℕ
  frames : String → List ℕ

/-- Key list of a Python dict built by inserting keys left to right:
first-occurrence deduplication (`{name: ... for name in class_names}`). -/
def dictKeysAux : List String → List String → List String
  | acc, [] => acc
  | acc, a :: l => dictKeysAux (if a ∈ acc then acc else acc ++ [a]) l

/-- `behavior_counts = {name: 0 for name in self.class_names}` and
`behavior_frames = {name: [] for name in self.class_names}`. -/
def initStats (class_names : List String) : VideoStats :=
  ⟨dictKeysAux [] class_names, fun _ => 0, fun _ => []⟩

/-- The on-demand registration in the per-detection loop of `process_video`:
`if class_name not in behavior_counts: behavior_counts[class_name] = 0;
behavior_frames[class_name] = []`. -/
def registerKey (s : VideoStats) (class_name : String) : VideoStats :=
  if class_name ∈ s.keys then s
  else
    { keys := s.keys ++ [class_name]
      counts := fun c => if c = class_name then 0 else s.counts c
      frames := fun c => if c = class_name then [] else s.frames c }

/-- One iteration of `for det in detections` in `process_video`: register the
class if needed, increment its count, and append the frame index to its frame
list only when not already present. -/
def recordDetection (s0 : VideoStats) (frame_idx : ℕ) (class_name : String) : VideoStats :=
  let s := registerKey s0 class_name
  { keys := s.keys
    counts := fun c => if c = class_name then s.counts class_name + 1 else s.counts c
    frames := fun c =>
      if c = class_name then
        if frame_idx ∈ s.frames class_name then s.frames class_name
        else s.frames class_name ++ [frame_idx]
      else s.frames c }

/-- The whole `for det in detections` loop for one sampled frame. -/
def recordFrame (s : VideoStats) (frame_idx : ℕ) (dets : List Det) : VideoStats :=
  dets.foldl (fun acc d => recordDetection acc frame_idx d.class_name) s

/-- The statistics effect of a `process_video` run, as the fold over the
sampled frames that produced detections (`evs` pairs each such frame index
with its surviving detections). -/
def processEvents (s : VideoStats) (evs : List (ℕ × List Det)) : VideoStats :=
  evs.foldl (fun acc p => recordFrame acc p.1 p.2) s

/-- `'total_detections': sum(behavior_counts.values())`. -/
def total_detections (s : VideoStats) : ℕ := (s.keys.map s.counts).sum

/-- The two bookkeeping invariants `process_video` maintains: dict keys are
distinct, only registered keys have nonzero counts, and every per-class frame
list is duplicate-free. -/
def statsOK (s : VideoStats) : Prop :=
  s.keys.Nodup ∧ (∀ x, x ∉ s.keys → s.counts x = 0) ∧ ∀ x, (s.frames x).Nodup

theorem calculate_iou_comm (b1 b2 : Box) : calculate_iou b1 b2 = calculate_iou b2 b1 := by
  unfold calculate_iou
  dsimp only
  rw [max_comm b1.x1 b2.x1, max_comm b1.y1 b2.y1, min_comm b1.x2 b2.x2, min_comm b1.y2 b2.y2,
    add_comm ((b1.x2 - b1.x1) * (b1.y2 - b1.y1)) ((b2.x2 - b2.x1) * (b2.y2 - b2.y1))]

theorem nms_keep_subset : ∀ l : List Det, ∀ d ∈ nms_keep l, d ∈ l := by
  intro l
  induction l using nms_keep.induct with
  | case1 => intro d hd; simp [nms_keep] at hd
  | case2 best rest ih =>
    intro d hd
    rw [nms_keep] at hd
    rcases List.mem_cons.mp hd with h | h
    · exact h ▸ List.mem_cons_self _ _
    · exact List.mem_cons_of_mem _ (List.mem_of_mem_filter (ih d h))

theorem nms_keep_pairwise {R : Det → Det → Prop} :
    ∀ l : List Det, l.Pairwise R → (nms_keep l).Pairwise R := by
  intro l
  induction l using nms_keep.induct with
  | case1 => intro _; simp [nms_keep]
  | case2 best rest ih =>
    intro hp
    rw [nms_keep]
    rcases List.pairwise_cons.mp hp with ⟨hhead, htail⟩
    refine List.pairwise_cons.mpr ⟨?_, ih (htail.filter _)⟩
    intro d hd
    exact hhead d (List.mem_of_mem_filter (nms_keep_subset _ d hd))

theorem nms_keep_iou_lt :
    ∀ l : List Det,
      (nms_keep l).Pairwise (fun a b => calculate_iou a.bbox b.bbox < 45/100) := by
  intro l
  induction l using nms_keep.induct with
  | case1 => simp [nms_keep]
  | case2 best rest ih =>
    rw [nms_keep]
    refine List.pairwise_cons.mpr ⟨?_, ih⟩
    intro d hd
    have hmem := nms_keep_subset _ d hd
    have := List.of_mem_filter hmem
    exact of_decide_eq_true this

/-- C1: after the Deduplicator, every pair of distinct kept detections has
IoU strictly below 0.45 (the suppression predicate never looks at class
labels), and IoU is symmetric, so the bound holds for unordered pairs. -/
theorem dedup_pairwise_iou_lt (ds : List Det) :
    (dedup ds).Pairwise (fun a b => calculate_iou a.bbox b.bbox < 45/100) ∧
      ∀ b1 b2 : Box, calculate_iou b1 b2 = calculate_iou b2 b1 := by
  refine ⟨?_, calculate_iou_comm⟩
  unfold dedup
  split
  · exact nms_keep_iou_lt _
  · rename_i h
    match ds, h with
    | [], _ => exact List.Pairwise.nil
    | [a], _ => exact List.pairwise_singleton _ _
    | a :: b :: t, h => simp at h

theorem nms_keep_eq_self :
    ∀ l : List Det,
      l.Pairwise (fun a b => calculate_iou a.bbox b.bbox < 45/100) → nms_keep l = l := by
  intro l
  induction l using nms_keep.induct with
  | case1 => intro _; rw [nms_keep]
  | case2 best rest ih =>
    intro hp
    rcases List.pairwise_cons.mp hp with ⟨hhead, htail⟩
    have hf : (rest.filter fun det => decide (calculate_iou best.bbox det.bbox < 45/100))
        = rest := by
      apply List.filter_eq_self.mpr
      intro d hd
      exact decide_eq_true (hhead d hd)
    rw [nms_keep, hf]
    rw [hf] at ih
    exact congrArg (best :: ·) (ih htail)

/-- C6: the Deduplicator is idempotent — applied to its own output it returns
that output unchanged. -/
theorem dedup_idempotent (ds : List Det) : dedup (dedup ds) = dedup ds := by
  by_cases h1 : ds.length > 1
  · simp only [dedup, if_pos h1]
    by_cases h2 : (nms_keep (sortByConfDesc ds)).length > 1
    · rw [if_pos h2]
      have hsorted : List.Sorted confGE (nms_keep (sortByConfDesc ds)) := by
        apply nms_keep_pairwise
        exact List.sorted_insertionSort confGE ds
      have hs : sortByConfDesc (nms_keep (sortByConfDesc ds)) = nms_keep (sortByConfDesc ds) :=
        List.Sorted.insertionSort_eq hsorted
      rw [hs]
      exact nms_keep_eq_self _ (nms_keep_iou_lt _)
    · rw [if_neg h2]
  · simp only [dedup, if_neg h1]

/-- C4: a first-pass detection is kept iff its confidence is at least the
class-specific table value (Smoke 0.80, Drink 0.10, Phone 0.25, Driver 0.25),
any class name absent from the table falling back to the caller-supplied
global floor; in particular a Smoke detection at confidence 0.5 is discarded
and a Drink detection at confidence 0.15 is kept. -/
theorem firstPassFilter_spec (conf_threshold : ℚ) (ds : List Det) (d : Det) (b : Box) :
    (d ∈ firstPassFilter conf_threshold ds ↔
      d ∈ ds ∧ (class_thresholds d.class_name).getD conf_threshold ≤ d.confidence) ∧
    class_thresholds "Smoke" = some (80/100) ∧
    class_thresholds "Drink" = some (10/100) ∧
    class_thresholds "Phone" = some (25/100) ∧
    class_thresholds "Driver" = some (25/100) ∧
    (∀ name : String,
      name ∈ (["Smoke", "Drink", "Phone", "Driver"] : List String) ∨
        class_thresholds name = none) ∧
    threshold_gate conf_threshold ⟨b, 50/100, 0, "Smoke"⟩ = false ∧
    threshold_gate conf_threshold ⟨b, 15/100, 2, "Drink"⟩ = true := by
  refine ⟨?_, rfl, rfl, rfl, rfl, ?_, ?_, ?_⟩
  · simp [firstPassFilter, threshold_gate, List.mem_filter]
  · intro name
    by_cases h1 : name = "Smoke"
    · left; rw [h1]; simp
    by_cases h2 : name = "Drink"
    · left; rw [h2]; simp
    by_cases h3 : name = "Phone"
    · left; rw [h3]; simp
    by_cases h4 : name = "Driver"
    · left; rw [h4]; simp
    right; simp [class_thresholds, h1, h2, h3, h4]
  · show decide ((class_thresholds "Smoke").getD conf_threshold ≤ (50/100 : ℚ)) = false
    rw [show class_thresholds "Smoke" = some (80/100) from rfl, Option.getD_some]
    simp only [decide_eq_false_iff_not]
    norm_num
  · show decide ((class_thresholds "Drink").getD conf_threshold ≤ (15/100 : ℚ)) = true
    rw [show class_thresholds "Drink" = some (10/100) from rfl, Option.getD_some]
    simp only [decide_eq_true_eq]
    norm_num

/-- C5: with the vocabulary fixed at model load, generic mode is exactly
`'person' in class_names`, and the first pass then maps `cell phone` to
`Phone` (id 1), each of `bottle`/`cup`/`wine glass` to `Drink` (id 2),
`person` to `Driver` (id 3), and discards every other raw label. -/
theorem firstPass_generic_mapping (class_names : List String) (id : ℤ)
    (h : "person" ∈ class_names) :
    firstPassMapLabel class_names "cell phone" id = some ("Phone", 1) ∧
    (∀ s ∈ (["bottle", "cup", "wine glass"] : List String),
      firstPassMapLabel class_names s id = some ("Drink", 2)) ∧
    firstPassMapLabel class_names "person" id = some ("Driver", 3) ∧
    (∀ s : String,
      s ∉ ("cell phone" :: "person" :: ["bottle", "cup", "wine glass"] : List String) →
        firstPassMapLabel class_names s id = none) := by
  refine ⟨by simp [firstPassMapLabel, h], ?_, by simp [firstPassMapLabel, h], ?_⟩
  · intro s hs
    simp only [List.mem_cons, List.not_mem_nil, or_false] at hs
    rcases hs with rfl | rfl | rfl <;> simp [firstPassMapLabel, h]
  · intro s hs
    simp only [List.mem_cons, not_or] at hs
    obtain ⟨h1, h2, h3, h4, h5, -⟩ := hs
    simp [firstPassMapLabel, h, h1, h2, h3, h4, h5]

theorem firstPass_generic_mapping_witness :
    ("person" ∈ (["person"] : List String)) ∧
    firstPassMapLabel ["person"] "cell phone" 0 = some ("Phone", 1) ∧
    firstPassMapLabel ["person"] "bottle" 0 = some ("Drink", 2) ∧
    firstPassMapLabel ["person"] "person" 0 = some ("Driver", 3) ∧
    firstPassMapLabel ["person"] "book" 0 = none :=
  ⟨by decide,
    (firstPass_generic_mapping ["person"] 0 (by decide)).1,
    (firstPass_generic_mapping ["person"] 0 (by decide)).2.1 "bottle" (by decide),
    (firstPass_generic_mapping ["person"] 0 (by decide)).2.2.1,
    (firstPass_generic_mapping ["person"] 0 (by decide)).2.2.2 "book" (by decide)⟩

/-- C3 counterexample: under the specialized vocabulary
`["Smoke", "Phone", "Drink", "Driver"]` the driver-equivalent raw label
`Driver` is discarded by the first pass, not preserved as `Driver`. -/
theorem specialized_driver_label_discarded :
    firstPassMapLabel ["Smoke", "Phone", "Drink", "Driver"] "Driver" 3 = none := by
  rfl

/-- C3 amended: in specialized mode the first pass keeps a raw label, as-is
and with its raw class id, exactly when it is one of Smoke, Phone, Drink;
every other label — driver-equivalent labels included — is discarded. -/
theorem firstPass_specialized_mapping (class_names : List String) (name : String) (id : ℤ)
    (h : "person" ∉ class_names) :
    firstPassMapLabel class_names name id =
      if name ∈ target_behaviors then some (name, id) else none := by
  simp [firstPassMapLabel, h]

theorem firstPass_specialized_mapping_witness :
    ("person" ∉ (["Smoke", "Phone", "Drink"] : List String)) ∧
    firstPassMapLabel ["Smoke", "Phone", "Drink"] "Smoke" 0 =
      (if "Smoke" ∈ target_behaviors then some (("Smoke" : String), (0 : ℤ)) else none) :=
  ⟨by decide, firstPass_specialized_mapping ["Smoke", "Phone", "Drink"] "Smoke" 0 (by decide)⟩

/-- C2 counterexample: the second-pass confidence floor is 0.20 for a
specialized vocabulary and 0.15 for a generic one, so it is not lower in
specialized mode. -/
theorem second_pass_conf_not_lower_specialized :
    second_pass_conf ["Smoke"] = 20/100 ∧
    second_pass_conf ["person"] = 15/100 ∧
    ¬ second_pass_conf ["Smoke"] < second_pass_conf ["person"] := by
  have hs : ("person" : String) ∉ (["Smoke"] : List String) := by decide
  have hg : ¬ ("person" : String) ∉ (["person"] : List String) := by decide
  have h1 : second_pass_conf ["Smoke"] = 20/100 := by
    simp only [second_pass_conf]
    rw [if_pos hs]
  have h2 : second_pass_conf ["person"] = 15/100 := by
    simp only [second_pass_conf]
    rw [if_neg hg]
  refine ⟨h1, h2, ?_⟩
  rw [h1, h2]
  norm_num

/-- C2 amended: the second-pass confidence floor is strictly higher in
specialized mode (0.20) than in generic mode (0.15). -/
theorem second_pass_conf_higher_specialized (spec gen : List String)
    (h1 : "person" ∉ spec) (h2 : "person" ∈ gen) :
    second_pass_conf gen < second_pass_conf spec := by
  simp only [second_pass_conf, if_pos h1, if_neg (not_not_intro h2)]
  norm_num

theorem second_pass_conf_higher_specialized_witness :
    ("person" ∉ (["Smoke"] : List String)) ∧ ("person" ∈ (["person"] : List String)) ∧
    second_pass_conf ["person"] < second_pass_conf ["Smoke"] :=
  ⟨by decide, by decide,
    second_pass_conf_higher_specialized ["Smoke"] ["person"] (by decide) (by decide)⟩

/-- C7: whenever the second-pass loop emits a detection from a raw detection
of a crop whose top-left corner is `(crop_x1, crop_y1)`, the emitted bbox is
the crop-local bbox with `crop_x1` added to both x coordinates and `crop_y1`
added to both y coordinates — frame coordinates, never crop-local ones. -/
theorem secondPass_translates_bbox (class_names : List String) (crop_x1 crop_y1 : ℚ)
    (r : RawDet) (d : Det)
    (h : secondPassProcessRaw class_names crop_x1 crop_y1 r = some d) :
    d.bbox = translate_box r.bbox crop_x1 crop_y1 := by
  unfold secondPassProcessRaw at h
  dsimp only at h
  split_ifs at h
  all_goals cases h
  all_goals rfl

theorem secondPass_translates_bbox_witness :
    secondPassProcessRaw ["Smoke", "Phone", "Drink"] 10 20 ⟨⟨1, 2, 3, 4⟩, 9/10, 0⟩ =
      some ⟨⟨11, 22, 13, 24⟩, 9/10, 0, "Smoke"⟩ ∧
    (⟨⟨11, 22, 13, 24⟩, 9/10, 0, "Smoke"⟩ : Det).bbox = translate_box ⟨1, 2, 3, 4⟩ 10 20 := by
  have h : secondPassProcessRaw ["Smoke", "Phone", "Drink"] 10 20 ⟨⟨1, 2, 3, 4⟩, 9/10, 0⟩ =
      some ⟨⟨11, 22, 13, 24⟩, 9/10, 0, "Smoke"⟩ := by
    have hp : ("person" : String) ∉ (["Smoke", "Phone", "Drink"] : List String) := by decide
    unfold secondPassProcessRaw
    dsimp only
    rw [if_pos hp,
      show class_thresholds ((["Smoke", "Phone", "Drink"] : List String).getD 0 "")
        = some (80/100) from rfl,
      Option.getD_some, if_pos (by norm_num : (80/100 : ℚ) ≤ (9/10 : ℚ))]
    norm_num [translate_box]
  exact ⟨h, secondPass_translates_bbox _ 10 20 _ _ h⟩

/-- C10: in generic mode the second pass maps the raw label `cigarette` to
canonical class Smoke with class id 0, kept exactly when its confidence
reaches the Smoke table threshold 0.80, while the first-pass generic mapping
has no rule for `cigarette` and discards it. -/
theorem secondPass_generic_cigarette (class_names : List String) (crop_x1 crop_y1 : ℚ)
    (r : RawDet) (id : ℤ) (hg : "person" ∈ class_names)
    (hn : class_names.getD r.cls_id "" = "cigarette") :
    (secondPassProcessRaw class_names crop_x1 crop_y1 r =
      if (80/100 : ℚ) ≤ r.confidence then
        some ⟨translate_box r.bbox crop_x1 crop_y1, r.confidence, 0, "Smoke"⟩
      else none) ∧
    firstPassMapLabel class_names "cigarette" id = none := by
  constructor
  · unfold secondPassProcessRaw
    dsimp only
    rw [hn]
    simp [hg, class_thresholds]
  · simp [firstPassMapLabel, hg]

theorem secondPass_generic_cigarette_witness :
    ("person" ∈ (["person", "cigarette"] : List String)) ∧
    (["person", "cigarette"] : List String).getD 1 "" = "cigarette" ∧
    ((secondPassProcessRaw ["person", "cigarette"] 2 3 ⟨⟨0, 0, 1, 1⟩, 9/10, 1⟩ =
      if (80/100 : ℚ) ≤ (9/10 : ℚ) then
        some ⟨translate_box ⟨0, 0, 1, 1⟩ 2 3, 9/10, 0, "Smoke"⟩
      else none) ∧
    firstPassMapLabel ["person", "cigarette"] "cigarette" 5 = none) :=
  ⟨by decide, by decide,
    secondPass_generic_cigarette ["person", "cigarette"] 2 3 ⟨⟨0, 0, 1, 1⟩, 9/10, 1⟩ 5
      (by decide) (by decide)⟩

/-- C9: a driver box whose clamped crop region has non-positive width or
height is skipped: `proposeCrop` returns `none`, so the per-crop detector is
never invoked for it (no exception is possible — every function here is
total), and the remaining driver boxes are still processed. -/
theorem degenerate_crop_skipped (d_box : Box) (img_w img_h : ℤ)
    (runCrop : CropRegion → List Det) (pre post : List Box)
    (h : (cropBounds d_box img_w img_h).x2 ≤ (cropBounds d_box img_w img_h).x1 ∨
      (cropBounds d_box img_w img_h).y2 ≤ (cropBounds d_box img_w img_h).y1) :
    proposeCrop d_box img_w img_h = none ∧
    secondPassOverBoxes img_w img_h runCrop (pre ++ d_box :: post) =
      secondPassOverBoxes img_w img_h runCrop pre ++
        secondPassOverBoxes img_w img_h runCrop post := by
  have hnone : proposeCrop d_box img_w img_h = none := by
    unfold proposeCrop
    rw [if_pos h]
  refine ⟨hnone, ?_⟩
  induction pre with
  | nil =>
    simp only [List.nil_append, secondPassOverBoxes, hnone]
  | cons b bs ih =>
    simp only [List.cons_append, secondPassOverBoxes, List.append_eq]
    rw [ih, List.append_assoc]

theorem degenerate_crop_skipped_witness :
    proposeCrop ⟨5, 5, 5, 5⟩ 10 10 = none ∧
    secondPassOverBoxes 10 10 (fun _ => []) ([] ++ ⟨5, 5, 5, 5⟩ :: [⟨0, 0, 4, 4⟩]) =
      secondPassOverBoxes 10 10 (fun _ => []) [] ++
        secondPassOverBoxes 10 10 (fun _ => []) [⟨0, 0, 4, 4⟩] := by
  have hb : cropBounds ⟨5, 5, 5, 5⟩ 10 10 = ⟨5, 5, 5, 5⟩ := by
    norm_num [cropBounds, margin_x, margin_y, extra_y, pyInt]
  exact degenerate_crop_skipped ⟨5, 5, 5, 5⟩ 10 10 (fun _ => []) [] [⟨0, 0, 4, 4⟩]
    (Or.inl (by rw [hb]))

theorem sum_map_if_add_one {keys : List String} {f : String → ℕ} {c : String}
    (hn : keys.Nodup) (hc : c ∈ keys) :
    (keys.map fun x => if x = c then f c + 1 else f x).sum = (keys.map f).sum + 1 := by
  induction keys with
  | nil => cases hc
  | cons a t ih =>
    rcases List.mem_cons.mp hc with rfl | hct
    · have hat : c ∉ t := (List.nodup_cons.mp hn).1
      have hcc : (if c = c then f c + 1 else f c) = f c + 1 := if_pos rfl
      have ht : (t.map fun x => if x = c then f c + 1 else f x) = t.map f := by
        apply List.map_congr_left
        intro x hx
        rw [if_neg]
        intro hxc
        exact hat (hxc ▸ hx)
      simp only [List.map_cons, List.sum_cons, hcc, ht, eq_self_iff_true, if_true]
      omega
    · have hac : a ≠ c := by
        rintro rfl
        exact (List.nodup_cons.mp hn).1 hct
      simp only [List.map_cons, List.sum_cons, if_neg hac]
      rw [ih (List.nodup_cons.mp hn).2 hct]
      omega

theorem registerKey_statsOK (s : VideoStats) (c : String) (h : statsOK s) :
    statsOK (registerKey s c) ∧ c ∈ (registerKey s c).keys ∧
      total_detections (registerKey s c) = total_detections s := by
  obtain ⟨hn, h0, hf⟩ := h
  unfold registerKey
  by_cases hm : c ∈ s.keys
  · rw [if_pos hm]
    exact ⟨⟨hn, h0, hf⟩, hm, rfl⟩
  · rw [if_neg hm]
    refine ⟨⟨?_, ?_, ?_⟩, ?_, ?_⟩
    · simp [List.nodup_append, hn, hm]
    · intro x hx
      simp only [List.mem_append, List.mem_singleton, not_or] at hx
      dsimp only
      rw [if_neg hx.2]
      exact h0 x hx.1
    · intro x
      dsimp only
      split
      · exact List.nodup_nil
      · exact hf x
    · simp
    · show ((s.keys ++ [c]).map fun x => if x = c then 0 else s.counts x).sum
        = total_detections s
      rw [List.map_append, List.sum_append]
      have ht : (s.keys.map fun x => if x = c then 0 else s.counts x) = s.keys.map s.counts := by
        apply List.map_congr_left
        intro x hx
        rw [if_neg]
        rintro rfl
        exact hm hx
      simp [ht, total_detections]

theorem recordDetection_statsOK (s : VideoStats) (fi : ℕ) (c : String) (h : statsOK s) :
    statsOK (recordDetection s fi c) ∧
      total_detections (recordDetection s fi c) = total_detections s + 1 := by
  obtain ⟨⟨hn, h0, hf⟩, hmem, htot⟩ := registerKey_statsOK s c h
  unfold recordDetection
  refine ⟨⟨hn, ?_, ?_⟩, ?_⟩
  · intro x hx
    dsimp only at hx ⊢
    rw [if_neg]
    · exact h0 x hx
    · rintro rfl
      exact hx hmem
  · intro x
    dsimp only
    split
    · split
      · exact hf _
      · rename_i hfi
        simp [List.nodup_append, hf _, hfi]
    · exact hf x
  · show ((registerKey s c).keys.map
        fun x => if x = c then (registerKey s c).counts c + 1 else (registerKey s c).counts x).sum
      = total_detections s + 1
    rw [sum_map_if_add_one hn hmem]
    exact congrArg (· + 1) htot

theorem recordFrame_statsOK (fi : ℕ) (dets : List Det) :
    ∀ s : VideoStats, statsOK s → statsOK (recordFrame s fi dets) ∧
      total_detections (recordFrame s fi dets) = total_detections s + dets.length := by
  induction dets with
  | nil =>
    intro s h
    exact ⟨h, rfl⟩
  | cons d t ih =>
    intro s h
    obtain ⟨h1, h2⟩ := recordDetection_statsOK s fi d.class_name h
    obtain ⟨h3, h4⟩ := ih (recordDetection s fi d.class_name) h1
    refine ⟨h3, ?_⟩
    show total_detections (recordFrame (recordDetection s fi d.class_name) fi t)
      = total_detections s + (d :: t).length
    rw [h4, h2, List.length_cons]
    omega

theorem processEvents_statsOK (evs : List (ℕ × List Det)) :
    ∀ s : VideoStats, statsOK s → statsOK (processEvents s evs) ∧
      total_detections (processEvents s evs) =
        total_detections s + (evs.map fun p => p.2.length).sum := by
  induction evs with
  | nil =>
    intro s h
    exact ⟨h, by simp [processEvents]⟩
  | cons e t ih =>
    intro s h
    obtain ⟨h1, h2⟩ := recordFrame_statsOK e.1 e.2 s h
    obtain ⟨h3, h4⟩ := ih (recordFrame s e.1 e.2) h1
    refine ⟨h3, ?_⟩
    show total_detections (processEvents (recordFrame s e.1 e.2) t)
      = total_detections s + ((e :: t).map fun p => p.2.length).sum
    rw [h4, h2, List.map_cons, List.sum_cons]
    omega

theorem dictKeysAux_nodup : ∀ l acc : List String, acc.Nodup → (dictKeysAux acc l).Nodup := by
  intro l
  induction l with
  | nil =>
    intro acc h
    exact h
  | cons a t ih =>
    intro acc h
    rw [dictKeysAux]
    apply ih
    by_cases hm : a ∈ acc
    · rw [if_pos hm]
      exact h
    · rw [if_neg hm]
      simp [List.nodup_append, h, hm]

theorem statsOK_initStats (class_names : List String) : statsOK (initStats class_names) :=
  ⟨dictKeysAux_nodup class_names [] List.nodup_nil, fun _ _ => rfl, fun _ => List.nodup_nil⟩

theorem total_initStats (class_names : List String) :
    total_detections (initStats class_names) = 0 := by
  show ((dictKeysAux [] class_names).map fun _ => 0).sum = 0
  induction (dictKeysAux [] class_names) with
  | nil => rfl
  | cons a t ih => simp [ih]

theorem recordDetection_fresh (s : VideoStats) (fi : ℕ) (c : String) (h : c ∉ s.keys) :
    (recordDetection s fi c).keys = s.keys ++ [c] ∧
      (recordDetection s fi c).counts c = 1 ∧
      (recordDetection s fi c).frames c = [fi] := by
  have hreg : registerKey s c =
      { keys := s.keys ++ [c]
        counts := fun x => if x = c then 0 else s.counts x
        frames := fun x => if x = c then [] else s.frames x } := by
    unfold registerKey
    rw [if_neg h]
  unfold recordDetection
  rw [hreg]
  refine ⟨rfl, by simp, by simp⟩

/-- C8: over any `process_video` run (modelled as the fold of the per-frame
statistics updates over the sampled frames' detection lists), every class's
`behaviorFrames` list holds each frame index at most once, `totalDetections`
equals the sum of the `behaviorCounts` values, that sum counts every
processed detection exactly once, and a class name not pre-registered in the
statistics gets a fresh zero/empty entry on demand instead of failing. -/
theorem process_video_statistics (class_names : List String) (evs : List (ℕ × List Det)) :
    (∀ c, ((processEvents (initStats class_names) evs).frames c).Nodup) ∧
    total_detections (processEvents (initStats class_names) evs) =
      ((processEvents (initStats class_names) evs).keys.map
        (processEvents (initStats class_names) evs).counts).sum ∧
    total_detections (processEvents (initStats class_names) evs) =
      (evs.map fun p => p.2.length).sum ∧
    (∀ (s : VideoStats) (c : String) (fi : ℕ), c ∉ s.keys →
      (recordDetection s fi c).keys = s.keys ++ [c] ∧
        (recordDetection s fi c).counts c = 1 ∧
        (recordDetection s fi c).frames c = [fi]) := by
  obtain ⟨⟨-, -, hframes⟩, htot⟩ :=
    processEvents_statsOK evs (initStats class_names) (statsOK_initStats class_names)
  refine ⟨hframes, rfl, ?_, fun s c fi hc => recordDetection_fresh s fi c hc⟩
  rw [htot, total_initStats, Nat.zero_add]

theorem process_video_statistics_witness :
    ((processEvents (initStats ["Phone"])
        [(4, [⟨⟨0, 0, 1, 1⟩, 9/10, 1, "Phone"⟩, ⟨⟨0, 0, 2, 2⟩, 8/10, 1, "Phone"⟩])]).frames
        "Phone").Nodup ∧
    total_detections (processEvents (initStats ["Phone"])
        [(4, [⟨⟨0, 0, 1, 1⟩, 9/10, 1, "Phone"⟩, ⟨⟨0, 0, 2, 2⟩, 8/10, 1, "Phone"⟩])]) =
      (([((4 : ℕ), [(⟨⟨0, 0, 1, 1⟩, 9/10, 1, "Phone"⟩ : Det), ⟨⟨0, 0, 2, 2⟩, 8/10, 1, "Phone"⟩])] :
        List (ℕ × List Det)).map fun p => p.2.length).sum ∧
    ("Smoke" ∉ (initStats ["Phone"]).keys ∧
      (recordDetection (initStats ["Phone"]) 7 "Smoke").keys =
        (initStats ["Phone"]).keys ++ ["Smoke"] ∧
      (recordDetection (initStats ["Phone"]) 7 "Smoke").counts "Smoke" = 1 ∧
      (recordDetection (initStats ["Phone"]) 7 "Smoke").frames "Smoke" = [7]) := by
  have hni : ("Smoke" : String) ∉ (initStats ["Phone"]).keys := by decide
  obtain ⟨hk, hc, hf⟩ := (process_video_statistics ["Phone"]
    [(4, [⟨⟨0, 0, 1, 1⟩, 9/10, 1, "Phone"⟩, ⟨⟨0, 0, 2, 2⟩, 8/10, 1, "Phone"⟩])]).2.2.2
    (initStats ["Phone"]) "Smoke" 7 hni
  exact ⟨(process_video_statistics ["Phone"]
      [(4, [⟨⟨0, 0, 1, 1⟩, 9/10, 1, "Phone"⟩, ⟨⟨0, 0, 2, 2⟩, 8/10, 1, "Phone"⟩])]).1 "Phone",
    (process_video_statistics ["Phone"]
      [(4, [⟨⟨0, 0, 1, 1⟩, 9/10, 1, "Phone"⟩, ⟨⟨0, 0, 2, 2⟩, 8/10, 1, "Phone"⟩])]).2.2.1,
    hni, hk, hc, hf⟩

end DetectDriver
